import Mathlib

/-
Verification of the lenstronomy analytic lens-profile evaluation engine:
the truncated singular isothermal sphere profile (SIS_truncate) and the
elliptical constant-density slice profile (ElliSLICE).

The Python source is embedded shallowly over the real numbers ℝ (numpy
floats become reals, complex values become ℂ).  Scalar code paths and the
numpy boolean-mask array code paths are embedded separately, because the
source implements them separately.  Python operations that raise an
exception on concrete float inputs (division by zero, `cmath.log(0)`)
are embedded as `Option`-valued functions returning `none` wherever a
claim exercises the failure; divisions whose denominators are nonzero for
every parameter set a claim quantifies over (for instance by `a², b²` in
the ellipse-membership test, with `a, b > 0`) use total real division.
The helper `param_util.cart2polar` is not among the given sources and is
modelled from the spec (Cartesian to polar conversion: radius and
`arctan2` angle, the latter as the principal complex argument).
-/

noncomputable section

open scoped Classical

namespace SIS_truncate

/-- Scalar path of `SIS_truncate.function` (the `isinstance(r, int/float)`
branch): the truncated-SIS lensing potential. -/
def function (x y theta_E r_trunc center_x center_y : ℝ) : ℝ :=
  let x_shift := x - center_x
  let y_shift := y - center_y
  let r := Real.sqrt (x_shift * x_shift + y_shift * y_shift)
  if r < r_trunc then theta_E * r
  else if r < 2 * r_trunc then
    theta_E * r_trunc + 1 / 2 * theta_E * (3 - r / r_trunc) * (r - r_trunc)
  else 3 / 2 * theta_E * r_trunc

/-- Element-wise semantics of the numpy array path of
`SIS_truncate.function`: starting from `np.zeros_like(r)`, the masks
`r < r_trunc`, `(r < 2*r_trunc) & (r > r_trunc)` and `r > 2*r_trunc`
are applied in order (they are pairwise disjoint, so last-write-wins
ordering is equivalent to any ordering). -/
def functionArrElem (x y theta_E r_trunc center_x center_y : ℝ) : ℝ :=
  let x_shift := x - center_x
  let y_shift := y - center_y
  let r := Real.sqrt (x_shift * x_shift + y_shift * y_shift)
  if 2 * r_trunc < r then 3 / 2 * theta_E * r_trunc
  else if r_trunc < r ∧ r < 2 * r_trunc then
    theta_E * r_trunc + 1 / 2 * theta_E * (3 - r / r_trunc) * (r - r_trunc)
  else if r < r_trunc then theta_E * r
  else 0

/-- Array path of `SIS_truncate.function`, on a list of coordinate pairs. -/
def functionArr (pts : List (ℝ × ℝ)) (theta_E r_trunc center_x center_y : ℝ) :
    List ℝ :=
  pts.map fun p => functionArrElem p.1 p.2 theta_E r_trunc center_x center_y

/-- Scalar path of `SIS_truncate._dphi_dr`: first radial derivative of the
potential. -/
def dphi_dr (x y theta_E r_trunc : ℝ) : ℝ :=
  let r := Real.sqrt (x * x + y * y)
  if r = 0 then 0
  else if r < r_trunc then theta_E
  else if r < 2 * r_trunc then theta_E * (2 - r / r_trunc)
  else 0

/-- Element-wise semantics of the numpy array path of
`SIS_truncate._dphi_dr`: masks `(r < r_trunc) & (r > 0)`,
`(r < 2*r_trunc) & (r >= r_trunc)` and `r >= 2*r_trunc` over zeros. -/
def dphi_drArrElem (x y theta_E r_trunc : ℝ) : ℝ :=
  let r := Real.sqrt (x * x + y * y)
  if 2 * r_trunc ≤ r then 0
  else if r_trunc ≤ r ∧ r < 2 * r_trunc then theta_E * (2 - r / r_trunc)
  else if 0 < r ∧ r < r_trunc then theta_E
  else 0

/-- Scalar path of `SIS_truncate._d2phi_dr2`: second radial derivative. -/
def d2phi_dr2 (x y theta_E r_trunc : ℝ) : ℝ :=
  let r := Real.sqrt (x * x + y * y)
  if r < r_trunc then 0
  else if r < 2 * r_trunc then -theta_E / r_trunc
  else 0

/-- Element-wise semantics of the numpy array path of
`SIS_truncate._d2phi_dr2`: masks `r < r_trunc`,
`(r < 2*r_trunc) & (r > r_trunc)` and `r > 2*r_trunc` over zeros.
Note the strict `r > r_trunc` in the middle mask. -/
def d2phi_dr2ArrElem (x y theta_E r_trunc : ℝ) : ℝ :=
  let r := Real.sqrt (x * x + y * y)
  if 2 * r_trunc < r then 0
  else if r_trunc < r ∧ r < 2 * r_trunc then -theta_E / r_trunc
  else if r < r_trunc then 0
  else 0

/-- `SIS_truncate._dr_dx`: the gradient (dr/dx, dr/dy) of the polar radius,
with the `r == 0 → r := 1` guard.  The scalar and array paths coincide
element-wise. -/
def dr_dx (x y : ℝ) : ℝ × ℝ :=
  let r := Real.sqrt (x ^ 2 + y ^ 2)
  let r := if r = 0 then 1 else r
  (x / r, y / r)

/-- `SIS_truncate._d2r_dx2`: second derivatives
(d²r/dx², d²r/dy², d²r/dxdy), with the `r == 0 → r := 1` guard. -/
def d2r_dx2 (x y : ℝ) : ℝ × ℝ × ℝ :=
  let r := Real.sqrt (x ^ 2 + y ^ 2)
  let r := if r = 0 then 1 else r
  (y ^ 2 / r ^ 3, x ^ 2 / r ^ 3, -x * y / r ^ 3)

/-- Scalar path of `SIS_truncate.derivatives`: deflection by chain rule. -/
def derivatives (x y theta_E r_trunc center_x center_y : ℝ) : ℝ × ℝ :=
  let x_shift := x - center_x
  let y_shift := y - center_y
  let dphi := dphi_dr x_shift y_shift theta_E r_trunc
  let dr := dr_dx x_shift y_shift
  (dphi * dr.1, dphi * dr.2)

/-- Element-wise semantics of the array path of `SIS_truncate.derivatives`
(all numpy operations involved are element-wise). -/
def derivativesArrElem (x y theta_E r_trunc center_x center_y : ℝ) : ℝ × ℝ :=
  let x_shift := x - center_x
  let y_shift := y - center_y
  let dphi := dphi_drArrElem x_shift y_shift theta_E r_trunc
  let dr := dr_dx x_shift y_shift
  (dphi * dr.1, dphi * dr.2)

/-- Array path of `SIS_truncate.derivatives` on a list of pairs. -/
def derivativesArr (pts : List (ℝ × ℝ)) (theta_E r_trunc center_x center_y : ℝ) :
    List (ℝ × ℝ) :=
  pts.map fun p => derivativesArrElem p.1 p.2 theta_E r_trunc center_x center_y

/-- Scalar path of `SIS_truncate.hessian`.  Note: exactly as in the source,
`dphi_dr`, `d2phi_dr2` and `_d2r_dx2` are evaluated on the centered
coordinates `(x_shift, y_shift)`, but `_dr_dx` is evaluated on the raw,
uncentered `(x, y)`. -/
def hessian (x y theta_E r_trunc center_x center_y : ℝ) : ℝ × ℝ × ℝ × ℝ :=
  let x_shift := x - center_x
  let y_shift := y - center_y
  let dphi := dphi_dr x_shift y_shift theta_E r_trunc
  let d2phi := d2phi_dr2 x_shift y_shift theta_E r_trunc
  let dr := dr_dx x y
  let d2r := d2r_dx2 x_shift y_shift
  let f_xx := d2r.1 * dphi + dr.1 ^ 2 * d2phi
  let f_yy := d2r.2.1 * dphi + dr.2 ^ 2 * d2phi
  let f_xy := d2r.2.2 * dphi + dr.1 * dr.2 * d2phi
  (f_xx, f_xy, f_xy, f_yy)

/-- Element-wise semantics of the array path of `SIS_truncate.hessian`. -/
def hessianArrElem (x y theta_E r_trunc center_x center_y : ℝ) : ℝ × ℝ × ℝ × ℝ :=
  let x_shift := x - center_x
  let y_shift := y - center_y
  let dphi := dphi_drArrElem x_shift y_shift theta_E r_trunc
  let d2phi := d2phi_dr2ArrElem x_shift y_shift theta_E r_trunc
  let dr := dr_dx x y
  let d2r := d2r_dx2 x_shift y_shift
  let f_xx := d2r.1 * dphi + dr.1 ^ 2 * d2phi
  let f_yy := d2r.2.1 * dphi + dr.2 ^ 2 * d2phi
  let f_xy := d2r.2.2 * dphi + dr.1 * dr.2 * d2phi
  (f_xx, f_xy, f_xy, f_yy)

/-- Array path of `SIS_truncate.hessian` on a list of pairs. -/
def hessianArr (pts : List (ℝ × ℝ)) (theta_E r_trunc center_x center_y : ℝ) :
    List (ℝ × ℝ × ℝ × ℝ) :=
  pts.map fun p => hessianArrElem p.1 p.2 theta_E r_trunc center_x center_y

end SIS_truncate

/-- Evaluate a fallible function on every element of a list; the whole
computation fails (a Python exception propagates out of the list
comprehension) as soon as one element fails. -/
def mapOpt {α β : Type} (f : α → Option β) : List α → Option (List β)
  | [] => some []
  | a :: as =>
    match f a, mapOpt f as with
    | some b, some bs => some (b :: bs)
    | _, _ => none

namespace ElliSLICE

/-- The parameter dictionary `kwargs_slice` of the elliptical slice. -/
structure Slice where
  a : ℝ
  b : ℝ
  psi : ℝ
  sigma_0 : ℝ
  center_x : ℝ
  center_y : ℝ

/-- `ElliSLICE.sign`: the branch-selecting sign of a complex number. -/
def sign (z : ℂ) : ℝ :=
  if 0 < z.re ∨ (z.re = 0 ∧ 0 ≤ z.im) then 1 else -1

/-- Principal complex square root (`cmath.sqrt`). -/
def csqrt (z : ℂ) : ℂ := z ^ ((1 : ℂ) / 2)

/-- Median of three real numbers (`np.median` on a list of length 3). -/
def median3 (a b c : ℝ) : ℝ := max (min a b) (min (max a b) c)

/-- Combine three fallible evaluations of a complex-valued formula (given
as pairs of real and imaginary part) into the componentwise median; any
failure propagates. -/
def medOpt3 (o1 o2 o3 : Option (ℝ × ℝ)) : Option (ℝ × ℝ) :=
  match o1, o2, o3 with
  | some m, some p, some c => some (median3 m.1 p.1 c.1, median3 m.2 p.2 c.2)
  | _, _, _ => none

/-- Combine three fallible real evaluations into their median; any failure
propagates. -/
def medOpt3R (o1 o2 o3 : Option ℝ) : Option ℝ :=
  match o1, o2, o3 with
  | some m, some p, some c => some (median3 m p c)
  | _, _, _ => none

/-- Modelled from the spec: the polar radius of
`lenstronomy.Util.param_util.cart2polar` (the module is not part of the
given sources); Cartesian to polar conversion, radius component. -/
def polar_r (x y : ℝ) : ℝ := Real.sqrt (x ^ 2 + y ^ 2)

/-- Modelled from the spec: the polar angle of
`lenstronomy.Util.param_util.cart2polar` (the module is not part of the
given sources); `arctan2(y, x)`, embedded as the principal argument. -/
def polar_phi (x y : ℝ) : ℝ := Complex.arg (x + y * Complex.I)

/-- The axis-proximity test of `alpha_ext` and `pot_ext`: the polar angle
relative to `psi` is within `1e-10` (in `|sin|`) of the major or minor
ellipse axis. -/
def onAxis (x y psi : ℝ) : Prop :=
  |Real.sin (polar_phi x y - psi)| ≤ 1 / 10 ^ 10 ∨
    |Real.sin (polar_phi x y - psi - Real.pi / 2)| ≤ 1 / 10 ^ 10

/-- `ElliSLICE.alpha_in`: deflection inside the slice,
`(z - e·conj(z)·e^{2iψ})·σ₀`. -/
def alpha_in (x y : ℝ) (k : Slice) : ℝ × ℝ :=
  let z : ℂ := x + y * Complex.I
  let zb := (starRingEnd ℂ) z
  let e : ℝ := (k.a - k.b) / (k.a + k.b)
  let e2ipsi := Complex.exp (2 * Complex.I * k.psi)
  let I_in := (z - e * zb * e2ipsi) * k.sigma_0
  (I_in.re, I_in.im)

/-- One evaluation of the general (outside-branch) closed-form deflection
formula of `alpha_ext`, at coordinates (x, y):
`2ab/f2·(conj(z)e^{2iψ} - e^{iψ}·sign(conj(z)e^{iψ})·sqrt(conj(z)²e^{2iψ} - f2))·σ₀`.
Returns `none` when `f2 = a² - b² = 0`, where the Python float division
`2*a*b/f2` raises `ZeroDivisionError`. -/
def alphaCF (x y : ℝ) (k : Slice) : Option (ℝ × ℝ) :=
  let z : ℂ := x + y * Complex.I
  let zb := (starRingEnd ℂ) z
  let f2 : ℝ := k.a ^ 2 - k.b ^ 2
  if f2 = 0 then none
  else
    let e2ipsi := Complex.exp (2 * Complex.I * k.psi)
    let eipsi := Complex.exp (Complex.I * k.psi)
    let I_out := (2 * k.a * k.b / f2 : ℝ) *
        (zb * e2ipsi -
          eipsi * (sign (zb * eipsi) : ℝ) * csqrt (zb ^ 2 * e2ipsi - (f2 : ℝ))) *
        (k.sigma_0 : ℝ)
    some (I_out.re, I_out.im)

/-- `ElliSLICE.alpha_ext`: deflection outside the slice.  Near an ellipse
axis the general formula is evaluated at the point and at two angularly
perturbed points (±1e-10 rad at the same radius) and the componentwise
median is taken; otherwise, for `a == b` and points outside the circle the
simplified `σ₀a²(x,y)/r²` formula is returned, else the single general
evaluation. -/
def alpha_ext (x y : ℝ) (k : Slice) : Option (ℝ × ℝ) :=
  let r := polar_r x y
  let phi := polar_phi x y
  let eps : ℝ := 1 / 10 ^ 10
  if onAxis x y k.psi then
    medOpt3
      (alphaCF (r * Real.cos (phi - eps)) (r * Real.sin (phi - eps)) k)
      (alphaCF (r * Real.cos (phi + eps)) (r * Real.sin (phi + eps)) k)
      (alphaCF x y k)
  else if k.a = k.b ∧ x ^ 2 + y ^ 2 > k.a ^ 2 then
    some (k.sigma_0 * k.a ^ 2 * x / (x ^ 2 + y ^ 2),
          k.sigma_0 * k.a ^ 2 * y / (x ^ 2 + y ^ 2))
  else alphaCF x y k

/-- `ElliSLICE.pot_in`: potential inside the slice. -/
def pot_in (x y : ℝ) (k : Slice) : ℝ :=
  let e := (k.a - k.b) / (k.a + k.b)
  let rE := (k.a + k.b) / 2
  let p := 1 / 2 *
      ((1 - e) * (x * Real.cos k.psi + y * Real.sin k.psi) ^ 2 +
        (1 + e) * (y * Real.cos k.psi - x * Real.sin k.psi) ^ 2) *
      k.sigma_0
  let cst := k.sigma_0 * rE ^ 2 * (1 - e ^ 2) * Real.log rE
  p + cst

/-- The argument of the complex logarithm in the outside-branch potential
formula: `(sign(z·e^{-iψ})·z·e^{-iψ} + sqrt(z²e^{-2iψ} - f2))/2`. -/
def potLogArg (x y : ℝ) (k : Slice) : ℂ :=
  let z : ℂ := x + y * Complex.I
  let f2 : ℝ := k.a ^ 2 - k.b ^ 2
  let emipsi := Complex.exp (-Complex.I * k.psi)
  ((sign (z * emipsi) : ℝ) * z * emipsi + csqrt (z ^ 2 * Complex.exp (-2 * Complex.I * k.psi) - (f2 : ℝ))) / 2

/-- One evaluation of the general (outside-branch) closed-form potential
formula of `pot_ext` at coordinates (x, y).  Returns `none` when `e = 0`
(the Python float division `(1 - e**2)/(4*e)` raises `ZeroDivisionError`)
or when the argument of `cmath.log` is exactly `0` (Python raises
`ValueError`). -/
def potCF (x y : ℝ) (k : Slice) : Option ℝ :=
  let z : ℂ := x + y * Complex.I
  let e : ℝ := (k.a - k.b) / (k.a + k.b)
  let f2 : ℝ := k.a ^ 2 - k.b ^ 2
  let emipsi := Complex.exp (-Complex.I * k.psi)
  let em2ipsi := Complex.exp (-2 * Complex.I * k.psi)
  if e = 0 ∨ potLogArg x y k = 0 then none
  else
    some ((((1 - e ^ 2) / (4 * e) : ℝ) *
        ((f2 : ℝ) * Complex.log (potLogArg x y k) -
          (sign (z * emipsi) : ℝ) * z * emipsi * csqrt (z ^ 2 * em2ipsi - (f2 : ℝ)) +
          z ^ 2 * em2ipsi) *
        (k.sigma_0 : ℝ)).re)

/-- `ElliSLICE.pot_ext`: potential outside the slice, with the same
median-of-three mitigation near the ellipse axes. -/
def pot_ext (x y : ℝ) (k : Slice) : Option ℝ :=
  let r := polar_r x y
  let phi := polar_phi x y
  let eps : ℝ := 1 / 10 ^ 10
  if onAxis x y k.psi then
    medOpt3R
      (potCF (r * Real.cos (phi - eps)) (r * Real.sin (phi - eps)) k)
      (potCF (r * Real.cos (phi + eps)) (r * Real.sin (phi + eps)) k)
      (potCF x y k)
  else potCF x y k

/-- Scalar path of `ElliSLICE.function`: translate to the ellipse frame,
test membership, and dispatch to the inside or outside potential. -/
def function (x y a b psi sigma_0 center_x center_y : ℝ) : Option ℝ :=
  let k : Slice := ⟨a, b, psi, sigma_0, center_x, center_y⟩
  let x_ := x - center_x
  let y_ := y - center_y
  let x_rot := x_ * Real.cos psi + y_ * Real.sin psi
  let y_rot := -x_ * Real.sin psi + y_ * Real.cos psi
  if x_rot ^ 2 / a ^ 2 + y_rot ^ 2 / b ^ 2 ≤ 1 then some (pot_in x_ y_ k)
  else pot_ext x_ y_ k

/-- Array path of `ElliSLICE.function`: the source loops the identical
per-element computation over the coordinate list. -/
def functionArr (pts : List (ℝ × ℝ)) (a b psi sigma_0 center_x center_y : ℝ) :
    Option (List ℝ) :=
  mapOpt (fun p => function p.1 p.2 a b psi sigma_0 center_x center_y) pts

/-- Scalar path of `ElliSLICE.derivatives`. -/
def derivatives (x y a b psi sigma_0 center_x center_y : ℝ) : Option (ℝ × ℝ) :=
  let k : Slice := ⟨a, b, psi, sigma_0, center_x, center_y⟩
  let x_ := x - center_x
  let y_ := y - center_y
  let x_rot := x_ * Real.cos psi + y_ * Real.sin psi
  let y_rot := -x_ * Real.sin psi + y_ * Real.cos psi
  if x_rot ^ 2 / a ^ 2 + y_rot ^ 2 / b ^ 2 ≤ 1 then some (alpha_in x_ y_ k)
  else alpha_ext x_ y_ k

/-- Array path of `ElliSLICE.derivatives`. -/
def derivativesArr (pts : List (ℝ × ℝ)) (a b psi sigma_0 center_x center_y : ℝ) :
    Option (List (ℝ × ℝ)) :=
  mapOpt (fun p => derivatives p.1 p.2 a b psi sigma_0 center_x center_y) pts

/-- Scalar path of `ElliSLICE.hessian`: forward-difference quotients of the
analytic deflection with fixed step `1e-9`. -/
def hessian (x y a b psi sigma_0 center_x center_y : ℝ) :
    Option (ℝ × ℝ × ℝ × ℝ) :=
  let diff : ℝ := 1 / 10 ^ 9
  match derivatives x y a b psi sigma_0 center_x center_y,
      derivatives (x + diff) y a b psi sigma_0 center_x center_y,
      derivatives x (y + diff) a b psi sigma_0 center_x center_y with
  | some al, some al_dx, some al_dy =>
    some ((al_dx.1 - al.1) / diff, (al_dy.1 - al.1) / diff,
          (al_dx.2 - al.2) / diff, (al_dy.2 - al.2) / diff)
  | _, _, _ => none

/-- Array path of `ElliSLICE.hessian`: the three deflection fields are
evaluated on the whole coordinate list and the quotients are formed by
element-wise numpy arithmetic, yielding the four component lists. -/
def hessianArr (pts : List (ℝ × ℝ)) (a b psi sigma_0 center_x center_y : ℝ) :
    Option (List ℝ × List ℝ × List ℝ × List ℝ) :=
  let diff : ℝ := 1 / 10 ^ 9
  match derivativesArr pts a b psi sigma_0 center_x center_y,
      derivativesArr (pts.map fun p => (p.1 + diff, p.2)) a b psi sigma_0 center_x center_y,
      derivativesArr (pts.map fun p => (p.1, p.2 + diff)) a b psi sigma_0 center_x center_y with
  | some al, some al_dx, some al_dy =>
    some (List.zipWith (fun u v => (v.1 - u.1) / diff) al al_dx,
          List.zipWith (fun u v => (v.1 - u.1) / diff) al al_dy,
          List.zipWith (fun u v => (v.2 - u.2) / diff) al al_dx,
          List.zipWith (fun u v => (v.2 - u.2) / diff) al al_dy)
  | _, _, _ => none

end ElliSLICE

namespace SIS_truncate

/-- The truncated-SIS potential as a function of the polar radius alone
(the body of `SIS_truncate.function` after computing `r`). -/
def sisPiece (theta_E r_trunc r : ℝ) : ℝ :=
  if r < r_trunc then theta_E * r
  else if r < 2 * r_trunc then
    theta_E * r_trunc + 1 / 2 * theta_E * (3 - r / r_trunc) * (r - r_trunc)
  else 3 / 2 * theta_E * r_trunc

/-- The radial-derivative part of the claim on `_dphi_dr` and
`_d2phi_dr2`: values in the three radial regimes for scalar input,
scalar/array agreement for the first derivative everywhere and for the
second derivative away from the exact radius `r = r_trunc`. -/
def SisRadialDerivs (theta_E r_trunc : ℝ) : Prop :=
  (∀ x y : ℝ,
    (Real.sqrt (x * x + y * y) = 0 → dphi_dr x y theta_E r_trunc = 0) ∧
    (0 < Real.sqrt (x * x + y * y) → Real.sqrt (x * x + y * y) < r_trunc →
      dphi_dr x y theta_E r_trunc = theta_E) ∧
    (r_trunc ≤ Real.sqrt (x * x + y * y) →
      Real.sqrt (x * x + y * y) < 2 * r_trunc →
      dphi_dr x y theta_E r_trunc =
        theta_E * (2 - Real.sqrt (x * x + y * y) / r_trunc)) ∧
    (2 * r_trunc ≤ Real.sqrt (x * x + y * y) →
      dphi_dr x y theta_E r_trunc = 0) ∧
    (dphi_drArrElem x y theta_E r_trunc = dphi_dr x y theta_E r_trunc) ∧
    (Real.sqrt (x * x + y * y) < r_trunc →
      d2phi_dr2 x y theta_E r_trunc = 0) ∧
    (r_trunc ≤ Real.sqrt (x * x + y * y) →
      Real.sqrt (x * x + y * y) < 2 * r_trunc →
      d2phi_dr2 x y theta_E r_trunc = -theta_E / r_trunc) ∧
    (2 * r_trunc ≤ Real.sqrt (x * x + y * y) →
      d2phi_dr2 x y theta_E r_trunc = 0) ∧
    (Real.sqrt (x * x + y * y) ≠ r_trunc →
      d2phi_dr2ArrElem x y theta_E r_trunc = d2phi_dr2 x y theta_E r_trunc)) ∧
  (∀ center_x center_y : ℝ,
    derivatives center_x center_y theta_E r_trunc center_x center_y = (0, 0))

/-- The monotonicity/boundedness claim on the truncated-SIS potential:
nondecreasing in the centered radius, bounded between `0` and
`1.5·theta_E·r_trunc`, and attaining the upper bound for `r ≥ 2·r_trunc`. -/
def SisPotentialMonoBound (theta_E r_trunc center_x center_y : ℝ) : Prop :=
  (∀ x1 y1 x2 y2 : ℝ,
    Real.sqrt ((x1 - center_x) * (x1 - center_x) + (y1 - center_y) * (y1 - center_y)) ≤
      Real.sqrt ((x2 - center_x) * (x2 - center_x) + (y2 - center_y) * (y2 - center_y)) →
    function x1 y1 theta_E r_trunc center_x center_y ≤
      function x2 y2 theta_E r_trunc center_x center_y) ∧
  (∀ x y : ℝ,
    0 ≤ function x y theta_E r_trunc center_x center_y ∧
    function x y theta_E r_trunc center_x center_y ≤ 3 / 2 * theta_E * r_trunc) ∧
  (∀ x y : ℝ,
    2 * r_trunc ≤
      Real.sqrt ((x - center_x) * (x - center_x) + (y - center_y) * (y - center_y)) →
    function x y theta_E r_trunc center_x center_y = 3 / 2 * theta_E * r_trunc)

/-- Scalar/array agreement for the truncated-SIS profile: the array paths
preserve cardinality and order, and each output element equals the scalar
evaluation at the corresponding coordinate pair — for the potential away
from the exact boundary radii `r_trunc` and `2·r_trunc`, for the
deflection everywhere, and for the hessian away from `r_trunc`. -/
def SisArrayAgrees (theta_E r_trunc center_x center_y : ℝ) : Prop :=
  ∀ pts : List (ℝ × ℝ),
    (functionArr pts theta_E r_trunc center_x center_y).length = pts.length ∧
    (derivativesArr pts theta_E r_trunc center_x center_y).length = pts.length ∧
    (hessianArr pts theta_E r_trunc center_x center_y).length = pts.length ∧
    ∀ (i : ℕ) (x y : ℝ), pts[i]? = some (x, y) →
      ((Real.sqrt ((x - center_x) * (x - center_x) + (y - center_y) * (y - center_y)) ≠
          r_trunc →
        Real.sqrt ((x - center_x) * (x - center_x) + (y - center_y) * (y - center_y)) ≠
          2 * r_trunc →
        (functionArr pts theta_E r_trunc center_x center_y)[i]? =
          some (function x y theta_E r_trunc center_x center_y)) ∧
      (derivativesArr pts theta_E r_trunc center_x center_y)[i]? =
        some (derivatives x y theta_E r_trunc center_x center_y) ∧
      (Real.sqrt ((x - center_x) * (x - center_x) + (y - center_y) * (y - center_y)) ≠
          r_trunc →
        (hessianArr pts theta_E r_trunc center_x center_y)[i]? =
          some (hessian x y theta_E r_trunc center_x center_y)))

end SIS_truncate

namespace ElliSLICE

/-- Scalar/array agreement for the elliptical-slice profile: when the
array path succeeds, it has the input cardinality and each element, in
order, equals the scalar evaluation at the corresponding pair. -/
def ElliArrayAgrees (a b psi sigma_0 center_x center_y : ℝ) : Prop :=
  ∀ pts : List (ℝ × ℝ),
    (∀ fs, functionArr pts a b psi sigma_0 center_x center_y = some fs →
      fs.length = pts.length ∧
      ∀ (i : ℕ) (x y : ℝ), pts[i]? = some (x, y) →
        fs[i]? = function x y a b psi sigma_0 center_x center_y) ∧
    (∀ ds, derivativesArr pts a b psi sigma_0 center_x center_y = some ds →
      ds.length = pts.length ∧
      ∀ (i : ℕ) (x y : ℝ), pts[i]? = some (x, y) →
        ds[i]? = derivatives x y a b psi sigma_0 center_x center_y) ∧
    (∀ fxx fxy fyx fyy,
      hessianArr pts a b psi sigma_0 center_x center_y =
        some (fxx, fxy, fyx, fyy) →
      (fxx.length = pts.length ∧ fxy.length = pts.length ∧
        fyx.length = pts.length ∧ fyy.length = pts.length) ∧
      ∀ (i : ℕ) (x y : ℝ), pts[i]? = some (x, y) →
        ∃ v1 v2 v3 v4, fxx[i]? = some v1 ∧ fxy[i]? = some v2 ∧
          fyx[i]? = some v3 ∧ fyy[i]? = some v4 ∧
          hessian x y a b psi sigma_0 center_x center_y =
            some (v1, v2, v3, v4))

end ElliSLICE

namespace SIS_truncate

lemma function_eq_sisPiece (x y theta_E r_trunc center_x center_y : ℝ) :
    function x y theta_E r_trunc center_x center_y =
      sisPiece theta_E r_trunc
        (Real.sqrt ((x - center_x) * (x - center_x) + (y - center_y) * (y - center_y))) :=
  rfl

lemma sisPiece_mono {theta_E r_trunc : ℝ} (htheta : 0 ≤ theta_E)
    (hrt : 0 < r_trunc) {r1 r2 : ℝ} (h12 : r1 ≤ r2) :
    sisPiece theta_E r_trunc r1 ≤ sisPiece theta_E r_trunc r2 := by
  unfold sisPiece
  have hq : ∀ r : ℝ, r_trunc ≤ r → r < 2 * r_trunc →
      0 ≤ 1 / 2 * theta_E * (3 - r / r_trunc) * (r - r_trunc) := by
    intro r hr hr2
    have h3 : r / r_trunc ≤ 2 := by
      rw [div_le_iff₀ hrt]; linarith
    have : 0 ≤ 3 - r / r_trunc := by linarith
    have := mul_nonneg (mul_nonneg (by linarith : (0:ℝ) ≤ 1 / 2 * theta_E) this)
      (by linarith : (0:ℝ) ≤ r - r_trunc)
    linarith
  have hmid_le : ∀ r : ℝ, r_trunc ≤ r → r < 2 * r_trunc →
      theta_E * r_trunc + 1 / 2 * theta_E * (3 - r / r_trunc) * (r - r_trunc) ≤
        3 / 2 * theta_E * r_trunc := by
    intro r hr hr2
    have key : (3 * r_trunc - r) * (r - r_trunc) ≤ r_trunc * r_trunc := by
      nlinarith [sq_nonneg (r - 2 * r_trunc)]
    have e1 : 3 - r / r_trunc = (3 * r_trunc - r) / r_trunc := by
      field_simp
    have key2 : (3 - r / r_trunc) * (r - r_trunc) ≤ r_trunc := by
      rw [e1, div_mul_eq_mul_div, div_le_iff₀ hrt]
      nlinarith [key]
    nlinarith [key2, htheta]
  by_cases h1a : r1 < r_trunc
  · by_cases h2a : r2 < r_trunc
    · rw [if_pos h1a, if_pos h2a]
      exact mul_le_mul_of_nonneg_left h12 htheta
    · by_cases h2b : r2 < 2 * r_trunc
      · rw [if_pos h1a, if_neg h2a, if_pos h2b]
        have h1le : theta_E * r1 ≤ theta_E * r_trunc :=
          mul_le_mul_of_nonneg_left h1a.le htheta
        have := hq r2 (not_lt.mp h2a) h2b
        linarith
      · rw [if_pos h1a, if_neg h2a, if_neg h2b]
        have h1le : theta_E * r1 ≤ theta_E * r_trunc :=
          mul_le_mul_of_nonneg_left h1a.le htheta
        have : 0 ≤ theta_E * r_trunc := mul_nonneg htheta hrt.le
        linarith
  · have h2a : ¬ r2 < r_trunc := fun h => h1a (lt_of_le_of_lt h12 h)
    by_cases h1b : r1 < 2 * r_trunc
    · by_cases h2b : r2 < 2 * r_trunc
      · rw [if_neg h1a, if_pos h1b, if_neg h2a, if_pos h2b]
        have e1 : 3 - r1 / r_trunc = (3 * r_trunc - r1) / r_trunc := by
          field_simp
        have e2 : 3 - r2 / r_trunc = (3 * r_trunc - r2) / r_trunc := by
          field_simp
        have key : (3 * r_trunc - r1) * (r1 - r_trunc) ≤
            (3 * r_trunc - r2) * (r2 - r_trunc) := by
          nlinarith [mul_nonneg (sub_nonneg.mpr h12)
            (show (0:ℝ) ≤ 4 * r_trunc - r1 - r2 by linarith)]
        have key2 : (3 - r1 / r_trunc) * (r1 - r_trunc) ≤
            (3 - r2 / r_trunc) * (r2 - r_trunc) := by
          rw [e1, e2, div_mul_eq_mul_div, div_mul_eq_mul_div]
          exact div_le_div_of_nonneg_right key hrt.le
        nlinarith [key2, htheta]
      · rw [if_neg h1a, if_pos h1b, if_neg h2a, if_neg h2b]
        exact hmid_le r1 (not_lt.mp h1a) h1b
    · have h2b : ¬ r2 < 2 * r_trunc := fun h => h1b (lt_of_le_of_lt h12 h)
      rw [if_neg h1a, if_neg h1b, if_neg h2a, if_neg h2b]

lemma sisPiece_bounds {theta_E r_trunc : ℝ} (htheta : 0 ≤ theta_E)
    (hrt : 0 < r_trunc) {r : ℝ} (hr : 0 ≤ r) :
    0 ≤ sisPiece theta_E r_trunc r ∧
      sisPiece theta_E r_trunc r ≤ 3 / 2 * theta_E * r_trunc := by
  have hEt : 0 ≤ theta_E * r_trunc := mul_nonneg htheta hrt.le
  unfold sisPiece
  by_cases h1 : r < r_trunc
  · rw [if_pos h1]
    constructor
    · exact mul_nonneg htheta hr
    · have := mul_le_mul_of_nonneg_left h1.le htheta
      linarith
  · by_cases h2 : r < 2 * r_trunc
    · rw [if_neg h1, if_pos h2]
      have hrr : r_trunc ≤ r := not_lt.mp h1
      have e1 : 3 - r / r_trunc = (3 * r_trunc - r) / r_trunc := by field_simp
      have hq : 0 ≤ 1 / 2 * theta_E * (3 - r / r_trunc) * (r - r_trunc) := by
        have h3 : r / r_trunc ≤ 2 := by rw [div_le_iff₀ hrt]; linarith
        have h4 : 0 ≤ 3 - r / r_trunc := by linarith
        have := mul_nonneg (mul_nonneg (by linarith : (0:ℝ) ≤ 1 / 2 * theta_E) h4)
          (by linarith : (0:ℝ) ≤ r - r_trunc)
        linarith
      have key : (3 * r_trunc - r) * (r - r_trunc) ≤ r_trunc * r_trunc := by
        nlinarith [sq_nonneg (r - 2 * r_trunc)]
      have key2 : (3 - r / r_trunc) * (r - r_trunc) ≤ r_trunc := by
        rw [e1, div_mul_eq_mul_div, div_le_iff₀ hrt]
        nlinarith [key]
      constructor
      · linarith
      · nlinarith [key2, htheta]
    · rw [if_neg h1, if_neg h2]
      exact ⟨by linarith, le_refl _⟩

lemma sisPiece_attain {theta_E r_trunc : ℝ} (hrt : 0 < r_trunc) {r : ℝ}
    (h : 2 * r_trunc ≤ r) :
    sisPiece theta_E r_trunc r = 3 / 2 * theta_E * r_trunc := by
  unfold sisPiece
  rw [if_neg (by push_neg; linarith), if_neg (by push_neg; linarith)]

end SIS_truncate

/-- C10: for `theta_E ≥ 0` and `r_trunc > 0` the truncated-SIS potential
(scalar path) is monotone nondecreasing in the centered radius, bounded
between `0` and `1.5·theta_E·r_trunc`, and attains the upper bound at every
point with `r ≥ 2·r_trunc`. -/
theorem sis_function_monotone_bounded (theta_E r_trunc center_x center_y : ℝ)
    (htheta : 0 ≤ theta_E) (hrt : 0 < r_trunc) :
    SIS_truncate.SisPotentialMonoBound theta_E r_trunc center_x center_y := by
  refine ⟨?_, ?_, ?_⟩
  · intro x1 y1 x2 y2 h
    rw [SIS_truncate.function_eq_sisPiece, SIS_truncate.function_eq_sisPiece]
    exact SIS_truncate.sisPiece_mono htheta hrt h
  · intro x y
    rw [SIS_truncate.function_eq_sisPiece]
    exact SIS_truncate.sisPiece_bounds htheta hrt (Real.sqrt_nonneg _)
  · intro x y h
    rw [SIS_truncate.function_eq_sisPiece]
    exact SIS_truncate.sisPiece_attain hrt h

/-- Witness for C10, at `theta_E = 1`, `r_trunc = 1`, center `(0, 0)`. -/
theorem sis_function_monotone_bounded_witness :
    (0:ℝ) ≤ 1 ∧ (0:ℝ) < 1 ∧ SIS_truncate.SisPotentialMonoBound 1 1 0 0 :=
  ⟨by norm_num, by norm_num,
    sis_function_monotone_bounded 1 1 0 0 (by norm_num) (by norm_num)⟩

namespace SIS_truncate

lemma dphi_dr_radial (x y theta_E r_trunc : ℝ) :
    dphi_dr x y theta_E r_trunc =
      (fun r : ℝ =>
        if r = 0 then 0
        else if r < r_trunc then theta_E
        else if r < 2 * r_trunc then theta_E * (2 - r / r_trunc)
        else 0) (Real.sqrt (x * x + y * y)) :=
  rfl

lemma dphi_dr_cases {theta_E r_trunc : ℝ} (hrt : 0 < r_trunc) (x y : ℝ) :
    (Real.sqrt (x * x + y * y) = 0 → dphi_dr x y theta_E r_trunc = 0) ∧
    (0 < Real.sqrt (x * x + y * y) → Real.sqrt (x * x + y * y) < r_trunc →
      dphi_dr x y theta_E r_trunc = theta_E) ∧
    (r_trunc ≤ Real.sqrt (x * x + y * y) →
      Real.sqrt (x * x + y * y) < 2 * r_trunc →
      dphi_dr x y theta_E r_trunc =
        theta_E * (2 - Real.sqrt (x * x + y * y) / r_trunc)) ∧
    (2 * r_trunc ≤ Real.sqrt (x * x + y * y) →
      dphi_dr x y theta_E r_trunc = 0) := by
  rw [dphi_dr_radial]
  generalize Real.sqrt (x * x + y * y) = r
  refine ⟨?_, ?_, ?_, ?_⟩
  · intro h; simp only [if_pos h]
  · intro h0 h1
    simp only [if_neg h0.ne', if_pos h1]
  · intro h1 h2
    have h0 : (0:ℝ) < r := lt_of_lt_of_le hrt h1
    simp only [if_neg h0.ne', if_neg (not_lt.mpr h1), if_pos h2]
  · intro h
    have h0 : (0:ℝ) < r := lt_of_lt_of_le (by linarith) h
    simp only [if_neg h0.ne', if_neg (not_lt.mpr (by linarith : r_trunc ≤ r)),
      if_neg (not_lt.mpr h)]

lemma dphi_dr_arr_agrees (theta_E r_trunc x y : ℝ) :
    dphi_drArrElem x y theta_E r_trunc = dphi_dr x y theta_E r_trunc := by
  simp only [dphi_drArrElem, dphi_dr]
  have hr0 : 0 ≤ Real.sqrt (x * x + y * y) := Real.sqrt_nonneg _
  generalize hrr : Real.sqrt (x * x + y * y) = r at hr0 ⊢
  by_cases h0 : r = 0
  · subst h0
    by_cases hA : 2 * r_trunc ≤ (0:ℝ)
    · simp [hA]
    · have hB : ¬ (r_trunc ≤ (0:ℝ) ∧ (0:ℝ) < 2 * r_trunc) := by
        rintro ⟨h, h'⟩; exact hA (by linarith)
      simp [hA, hB]
  · have h0' : 0 < r := hr0.lt_of_ne (Ne.symm h0)
    by_cases h1 : r < r_trunc
    · have hA : ¬ (2 * r_trunc ≤ r) := by push_neg; linarith
      have hB : ¬ (r_trunc ≤ r ∧ r < 2 * r_trunc) := by
        rintro ⟨h, -⟩; linarith
      simp [hA, hB, h0, h0', h1]
    · by_cases h2 : r < 2 * r_trunc
      · have hA : ¬ (2 * r_trunc ≤ r) := not_le.mpr h2
        have hB : r_trunc ≤ r ∧ r < 2 * r_trunc := ⟨not_lt.mp h1, h2⟩
        simp [hA, hB, h0, h1, h2]
      · have hA : 2 * r_trunc ≤ r := not_lt.mp h2
        simp [hA, h0, h1, h2]

lemma d2phi_dr2_cases {theta_E r_trunc : ℝ} (hrt : 0 < r_trunc) (x y : ℝ) :
    (Real.sqrt (x * x + y * y) < r_trunc → d2phi_dr2 x y theta_E r_trunc = 0) ∧
    (r_trunc ≤ Real.sqrt (x * x + y * y) →
      Real.sqrt (x * x + y * y) < 2 * r_trunc →
      d2phi_dr2 x y theta_E r_trunc = -theta_E / r_trunc) ∧
    (2 * r_trunc ≤ Real.sqrt (x * x + y * y) →
      d2phi_dr2 x y theta_E r_trunc = 0) := by
  unfold d2phi_dr2
  generalize Real.sqrt (x * x + y * y) = r
  refine ⟨?_, ?_, ?_⟩
  · intro h; rw [if_pos h]
  · intro h1 h2; rw [if_neg (not_lt.mpr h1), if_pos h2]
  · intro h
    rw [if_neg (not_lt.mpr (by linarith)), if_neg (not_lt.mpr h)]

lemma d2phi_dr2_arr_agrees (theta_E r_trunc x y : ℝ)
    (hne : Real.sqrt (x * x + y * y) ≠ r_trunc) :
    d2phi_dr2ArrElem x y theta_E r_trunc = d2phi_dr2 x y theta_E r_trunc := by
  simp only [d2phi_dr2ArrElem, d2phi_dr2]
  have hr0 : 0 ≤ Real.sqrt (x * x + y * y) := Real.sqrt_nonneg _
  generalize hrr : Real.sqrt (x * x + y * y) = r at hr0 hne ⊢
  by_cases h1 : r < r_trunc
  · have hA : ¬ (2 * r_trunc < r) := by push_neg; linarith
    have hB : ¬ (r_trunc < r ∧ r < 2 * r_trunc) := by
      rintro ⟨h, -⟩; linarith
    simp [hA, hB, h1]
  · have h1' : r_trunc < r := lt_of_le_of_ne (not_lt.mp h1) (Ne.symm hne)
    by_cases h2 : r < 2 * r_trunc
    · have hA : ¬ (2 * r_trunc < r) := by push_neg; linarith
      have hB : r_trunc < r ∧ r < 2 * r_trunc := ⟨h1', h2⟩
      simp [hA, hB, h1, h2]
    · have hB : ¬ (r_trunc < r ∧ r < 2 * r_trunc) := by
        rintro ⟨-, h⟩; exact h2 h
      simp [hB, h1, h2]

end SIS_truncate

/-- C7 (amended): the radial derivatives `_dphi_dr` and `_d2phi_dr2` take
the claimed piecewise values on the scalar path; the array path of
`_dphi_dr` agrees with the scalar path everywhere; the array path of
`_d2phi_dr2` agrees everywhere except at exactly `r = r_trunc` (see the
counterexample theorem); and the deflection at the exact center is
`(0, 0)`. -/
theorem sis_radial_derivatives_ok (theta_E r_trunc : ℝ) (htheta : 0 ≤ theta_E)
    (hrt : 0 < r_trunc) : SIS_truncate.SisRadialDerivs theta_E r_trunc := by
  constructor
  · intro x y
    obtain ⟨c1, c2, c3, c4⟩ := @SIS_truncate.dphi_dr_cases theta_E r_trunc hrt x y
    obtain ⟨d1, d2, d3⟩ := @SIS_truncate.d2phi_dr2_cases theta_E r_trunc hrt x y
    exact ⟨c1, c2, c3, c4, SIS_truncate.dphi_dr_arr_agrees theta_E r_trunc x y,
      d1, d2, d3, SIS_truncate.d2phi_dr2_arr_agrees theta_E r_trunc x y⟩
  · intro center_x center_y
    unfold SIS_truncate.derivatives SIS_truncate.dphi_dr SIS_truncate.dr_dx
    norm_num

/-- Witness for C7, at `theta_E = 1`, `r_trunc = 1`. -/
theorem sis_radial_derivatives_ok_witness :
    (0:ℝ) ≤ 1 ∧ (0:ℝ) < 1 ∧ SIS_truncate.SisRadialDerivs 1 1 :=
  ⟨by norm_num, by norm_num,
    sis_radial_derivatives_ok 1 1 (by norm_num) (by norm_num)⟩

/-- Counterexample for C7 as stated: on an array entry at exactly
`r = r_trunc` the array path of `_d2phi_dr2` returns `0` while the scalar
path returns `-theta_E/r_trunc = -1`, so the scalar and array paths are
not identical. -/
theorem sis_d2phi_array_scalar_mismatch :
    SIS_truncate.d2phi_dr2ArrElem 1 0 1 1 = 0 ∧
    SIS_truncate.d2phi_dr2 1 0 1 1 = -1 ∧
    SIS_truncate.d2phi_dr2ArrElem 1 0 1 1 ≠ SIS_truncate.d2phi_dr2 1 0 1 1 := by
  have h1 : SIS_truncate.d2phi_dr2ArrElem 1 0 1 1 = 0 := by
    norm_num [SIS_truncate.d2phi_dr2ArrElem, Real.sqrt_one]
  have h2 : SIS_truncate.d2phi_dr2 1 0 1 1 = -1 := by
    norm_num [SIS_truncate.d2phi_dr2, Real.sqrt_one]
  exact ⟨h1, h2, by rw [h1, h2]; norm_num⟩

lemma sqrt_four : Real.sqrt 4 = 2 := by
  rw [show (4:ℝ) = 2 ^ 2 by norm_num, Real.sqrt_sq (by norm_num : (0:ℝ) ≤ 2)]

lemma sqrt_nine_quarters : Real.sqrt (9 / 4) = 3 / 2 := by
  rw [show (9 / 4 : ℝ) = (3 / 2) ^ 2 by norm_num,
    Real.sqrt_sq (by norm_num : (0:ℝ) ≤ 3 / 2)]

/-- C1, failing-input evaluation: with `theta_E = 1`, `r_trunc = 1`, on an
array entry at exactly `r = r_trunc = 1` the array path of
`SIS_truncate.function` returns `0` (the masks use strict inequalities on
both sides of each boundary), while the scalar path returns the documented
middle-regime value `theta_E·r_trunc = 1`; at `r = 2·r_trunc = 2` the
array path again returns `0` while the scalar path returns
`1.5·theta_E·r_trunc = 1.5`. -/
theorem sis_function_array_boundary_bug :
    SIS_truncate.functionArrElem 1 0 1 1 0 0 = 0 ∧
    SIS_truncate.function 1 0 1 1 0 0 = 1 ∧
    SIS_truncate.functionArrElem 2 0 1 1 0 0 = 0 ∧
    SIS_truncate.function 2 0 1 1 0 0 = 3 / 2 ∧
    SIS_truncate.functionArr [(1, 0)] 1 1 0 0 = [0] := by
  have e1 : SIS_truncate.functionArrElem 1 0 1 1 0 0 = 0 := by
    norm_num [SIS_truncate.functionArrElem, Real.sqrt_one]
  refine ⟨e1, ?_, ?_, ?_, ?_⟩
  · norm_num [SIS_truncate.function, Real.sqrt_one]
  · norm_num [SIS_truncate.functionArrElem, sqrt_four]
  · norm_num [SIS_truncate.function, sqrt_four]
  · simp [SIS_truncate.functionArr, e1]

lemma sqrt_nine : Real.sqrt 9 = 3 := by
  rw [show (9:ℝ) = 3 ^ 2 by norm_num, Real.sqrt_sq (by norm_num : (0:ℝ) ≤ 3)]

lemma sqrt_twentyfive : Real.sqrt 25 = 5 := by
  rw [show (25:ℝ) = 5 ^ 2 by norm_num, Real.sqrt_sq (by norm_num : (0:ℝ) ≤ 5)]

/-- C4, failing-input evaluation: `SIS_truncate.hessian` evaluates
`_dr_dx` on the raw, uncentered coordinates, so with center `(3, 5/2)` the
hessian at `(3, 4)` (centered offset `(0, 3/2)`) differs from the hessian
of the centered configuration at `(0, 3/2)` with center `(0, 0)`,
contradicting the all-centered chain-rule expansion (which gives the
latter value). -/
theorem sis_hessian_uncentered_bug :
    SIS_truncate.hessian 3 4 1 1 3 (5 / 2) =
      (-(2 / 75), -(12 / 25), -(12 / 25), -(16 / 25)) ∧
    SIS_truncate.hessian 0 (3 / 2) 1 1 0 0 = (1 / 3, 0, 0, -1) ∧
    SIS_truncate.hessian 3 4 1 1 3 (5 / 2) ≠
      SIS_truncate.hessian 0 (3 / 2) 1 1 0 0 := by
  have h1 : SIS_truncate.hessian 3 4 1 1 3 (5 / 2) =
      (-(2 / 75), -(12 / 25), -(12 / 25), -(16 / 25)) := by
    unfold SIS_truncate.hessian SIS_truncate.dphi_dr SIS_truncate.d2phi_dr2
      SIS_truncate.dr_dx SIS_truncate.d2r_dx2
    norm_num [sqrt_nine_quarters, sqrt_nine, sqrt_four, sqrt_twentyfive]
  have h2 : SIS_truncate.hessian 0 (3 / 2) 1 1 0 0 = (1 / 3, 0, 0, -1) := by
    unfold SIS_truncate.hessian SIS_truncate.dphi_dr SIS_truncate.d2phi_dr2
      SIS_truncate.dr_dx SIS_truncate.d2r_dx2
    norm_num [sqrt_nine_quarters, sqrt_nine, sqrt_four]
  refine ⟨h1, h2, ?_⟩
  rw [h1, h2]
  intro h
  have h5 := congrArg (fun t : ℝ × ℝ × ℝ × ℝ => t.1) h
  norm_num at h5

lemma mapOpt_length {α β : Type} (f : α → Option β) (l : List α) :
    ∀ r : List β, mapOpt f l = some r → r.length = l.length := by
  induction l with
  | nil =>
    intro r h
    simp only [mapOpt, Option.some_inj] at h
    subst h
    rfl
  | cons a as ih =>
    intro r h
    simp only [mapOpt] at h
    split at h
    · rename_i b bs hfa hrec
      simp only [Option.some.injEq] at h
      subst h
      simp [ih bs hrec]
    · exact absurd h (by simp)

lemma mapOpt_getElem {α β : Type} (f : α → Option β) (l : List α) :
    ∀ (r : List β) (i : ℕ) (a : α),
      mapOpt f l = some r → l[i]? = some a → r[i]? = f a := by
  induction l with
  | nil =>
    intro r i a h ha
    simp at ha
  | cons x xs ih =>
    intro r i a h ha
    simp only [mapOpt] at h
    split at h
    · rename_i b bs hfa hrec
      simp only [Option.some.injEq] at h
      subst h
      cases i with
      | zero =>
        simp only [List.getElem?_cons_zero, Option.some.injEq] at ha
        subst ha
        simp [hfa]
      | succ n =>
        simp only [List.getElem?_cons_succ] at ha ⊢
        exact ih bs n a hrec ha
    · exact absurd h (by simp)

lemma zipWith_getElem {α β γ : Type} (f : α → β → γ) :
    ∀ (l1 : List α) (l2 : List β) (i : ℕ) (a : α) (b : β),
      l1[i]? = some a → l2[i]? = some b →
      (List.zipWith f l1 l2)[i]? = some (f a b) := by
  intro l1
  induction l1 with
  | nil =>
    intro l2 i a b h1 h2
    simp at h1
  | cons x xs ih =>
    intro l2 i a b h1 h2
    cases l2 with
    | nil => simp at h2
    | cons y ys =>
      cases i with
      | zero =>
        simp only [List.getElem?_cons_zero, Option.some.injEq] at h1 h2
        subst h1
        subst h2
        simp [List.zipWith]
      | succ n =>
        simp only [List.getElem?_cons_succ] at h1 h2
        simpa [List.zipWith] using ih ys n a b h1 h2

namespace SIS_truncate

lemma function_arr_elem_agrees (theta_E r_trunc center_x center_y x y : ℝ)
    (h1 : Real.sqrt ((x - center_x) * (x - center_x) + (y - center_y) * (y - center_y)) ≠
      r_trunc)
    (h2 : Real.sqrt ((x - center_x) * (x - center_x) + (y - center_y) * (y - center_y)) ≠
      2 * r_trunc) :
    functionArrElem x y theta_E r_trunc center_x center_y =
      function x y theta_E r_trunc center_x center_y := by
  simp only [functionArrElem, function]
  have hr0 : 0 ≤
      Real.sqrt ((x - center_x) * (x - center_x) + (y - center_y) * (y - center_y)) :=
    Real.sqrt_nonneg _
  generalize Real.sqrt ((x - center_x) * (x - center_x) + (y - center_y) * (y - center_y)) = r
    at h1 h2 hr0 ⊢
  by_cases ha : r < r_trunc
  · have hA : ¬ (2 * r_trunc < r) := by push_neg; linarith
    have hB : ¬ (r_trunc < r ∧ r < 2 * r_trunc) := by rintro ⟨h, -⟩; linarith
    simp [hA, hB, ha]
  · have ha' : r_trunc < r := lt_of_le_of_ne (not_lt.mp ha) (Ne.symm h1)
    by_cases hb : r < 2 * r_trunc
    · have hA : ¬ (2 * r_trunc < r) := by push_neg; linarith
      have hB : r_trunc < r ∧ r < 2 * r_trunc := ⟨ha', hb⟩
      simp [hA, hB, ha, hb]
    · have hb' : 2 * r_trunc < r := lt_of_le_of_ne (not_lt.mp hb) (Ne.symm h2)
      simp [hb', ha, hb]

lemma derivatives_arr_elem_agrees (theta_E r_trunc center_x center_y x y : ℝ) :
    derivativesArrElem x y theta_E r_trunc center_x center_y =
      derivatives x y theta_E r_trunc center_x center_y := by
  simp only [derivativesArrElem, derivatives]
  rw [dphi_dr_arr_agrees]

lemma hessian_arr_elem_agrees (theta_E r_trunc center_x center_y x y : ℝ)
    (hne : Real.sqrt ((x - center_x) * (x - center_x) + (y - center_y) * (y - center_y)) ≠
      r_trunc) :
    hessianArrElem x y theta_E r_trunc center_x center_y =
      hessian x y theta_E r_trunc center_x center_y := by
  simp only [hessianArrElem, hessian]
  rw [dphi_dr_arr_agrees,
    d2phi_dr2_arr_agrees theta_E r_trunc (x - center_x) (y - center_y) hne]

end SIS_truncate

/-- C2 (amended): for every operation of both profiles, the array path
preserves cardinality and order, and each output element equals the scalar
evaluation at the corresponding coordinate pair with the same parameters —
except for the truncated profile's potential at entries whose radius is
exactly `r_trunc` or `2·r_trunc` and its hessian at entries whose radius is
exactly `r_trunc`, where the strict numpy masks leave the array result at
the zero-initialised value (see the counterexample theorem). -/
theorem array_scalar_agreement :
    (∀ theta_E r_trunc center_x center_y : ℝ,
      SIS_truncate.SisArrayAgrees theta_E r_trunc center_x center_y) ∧
    (∀ a b psi sigma_0 center_x center_y : ℝ,
      ElliSLICE.ElliArrayAgrees a b psi sigma_0 center_x center_y) := by
  constructor
  · intro theta_E r_trunc center_x center_y pts
    refine ⟨by simp [SIS_truncate.functionArr],
      by simp [SIS_truncate.derivativesArr],
      by simp [SIS_truncate.hessianArr], ?_⟩
    intro i x y hi
    refine ⟨?_, ?_, ?_⟩
    · intro h1 h2
      simp only [SIS_truncate.functionArr, List.getElem?_map, hi,
        Option.map_some']
      rw [SIS_truncate.function_arr_elem_agrees theta_E r_trunc center_x
        center_y x y h1 h2]
    · simp only [SIS_truncate.derivativesArr, List.getElem?_map, hi,
        Option.map_some']
      rw [SIS_truncate.derivatives_arr_elem_agrees]
    · intro h1
      simp only [SIS_truncate.hessianArr, List.getElem?_map, hi,
        Option.map_some']
      rw [SIS_truncate.hessian_arr_elem_agrees theta_E r_trunc center_x
        center_y x y h1]
  · intro a b psi sigma_0 center_x center_y pts
    refine ⟨?_, ?_, ?_⟩
    · intro fs hfs
      refine ⟨mapOpt_length _ _ fs hfs, ?_⟩
      intro i x y hi
      exact mapOpt_getElem _ _ fs i (x, y) hfs hi
    · intro ds hds
      refine ⟨mapOpt_length _ _ ds hds, ?_⟩
      intro i x y hi
      exact mapOpt_getElem _ _ ds i (x, y) hds hi
    · intro fxx fxy fyx fyy h
      simp only [ElliSLICE.hessianArr] at h
      split at h
      · rename_i al al_dx al_dy hal hal_dx hal_dy
        simp only [Option.some.injEq, Prod.mk.injEq] at h
        obtain ⟨e1, e2, e3, e4⟩ := h
        subst e1; subst e2; subst e3; subst e4
        have hlal : al.length = pts.length := mapOpt_length _ _ al hal
        have hlx : al_dx.length = pts.length := by
          have := mapOpt_length _ _ al_dx hal_dx
          simpa using this
        have hly : al_dy.length = pts.length := by
          have := mapOpt_length _ _ al_dy hal_dy
          simpa using this
        constructor
        · refine ⟨?_, ?_, ?_, ?_⟩ <;>
            simp [List.length_zipWith, hlal, hlx, hly]
        · intro i x y hi
          have hii : i < pts.length := by
            by_contra hcon
            rw [List.getElem?_eq_none (by omega)] at hi
            exact Option.noConfusion hi
          have hxi : (pts.map fun p => (p.1 + (1:ℝ) / 10 ^ 9, p.2))[i]? =
              some (x + 1 / 10 ^ 9, y) := by
            simp [List.getElem?_map, hi]
          have hyi : (pts.map fun p => (p.1, p.2 + (1:ℝ) / 10 ^ 9))[i]? =
              some (x, y + 1 / 10 ^ 9) := by
            simp [List.getElem?_map, hi]
          have h5 := mapOpt_getElem _ _ al i (x, y) hal hi
          have h6 := mapOpt_getElem _ _ al_dx i (x + 1 / 10 ^ 9, y) hal_dx hxi
          have h7 := mapOpt_getElem _ _ al_dy i (x, y + 1 / 10 ^ 9) hal_dy hyi
          rcases hd : ElliSLICE.derivatives x y a b psi sigma_0 center_x
              center_y with _ | d
          · rw [hd] at h5
            rw [List.getElem?_eq_none_iff] at h5
            omega
          rcases hdx : ElliSLICE.derivatives (x + 1 / 10 ^ 9) y a b psi
              sigma_0 center_x center_y with _ | dx
          · rw [hdx] at h6
            rw [List.getElem?_eq_none_iff] at h6
            have : (pts.map fun p => (p.1 + (1:ℝ) / 10 ^ 9, p.2)).length =
                pts.length := by simp
            omega
          rcases hdy : ElliSLICE.derivatives x (y + 1 / 10 ^ 9) a b psi
              sigma_0 center_x center_y with _ | dy
          · rw [hdy] at h7
            rw [List.getElem?_eq_none_iff] at h7
            omega
          rw [hd] at h5
          rw [hdx] at h6
          rw [hdy] at h7
          refine ⟨(dx.1 - d.1) / (1 / 10 ^ 9), (dy.1 - d.1) / (1 / 10 ^ 9),
            (dx.2 - d.2) / (1 / 10 ^ 9), (dy.2 - d.2) / (1 / 10 ^ 9),
            zipWith_getElem _ al al_dx i d dx h5 h6,
            zipWith_getElem _ al al_dy i d dy h5 h7,
            zipWith_getElem _ al al_dx i d dx h5 h6,
            zipWith_getElem _ al al_dy i d dy h5 h7, ?_⟩
          simp only [ElliSLICE.hessian, hd, hdx, hdy]
      · exact Option.noConfusion h

/-- Counterexample for C2 as stated: on the single-entry array
`[(1, 0)]` with `theta_E = 1`, `r_trunc = 1` (so `r = r_trunc` exactly),
the array path of the truncated profile's potential returns `[0]`, which
differs from the scalar evaluation `1` at the same pair. -/
theorem array_scalar_agreement_cex :
    SIS_truncate.functionArr [(1, 0)] 1 1 0 0 ≠
      [SIS_truncate.function 1 0 1 1 0 0] := by
  have h1 : SIS_truncate.functionArr [(1, 0)] 1 1 0 0 = [0] := by
    have e1 : SIS_truncate.functionArrElem 1 0 1 1 0 0 = 0 := by
      norm_num [SIS_truncate.functionArrElem, Real.sqrt_one]
    simp [SIS_truncate.functionArr, e1]
  have h2 : SIS_truncate.function 1 0 1 1 0 0 = 1 := by
    norm_num [SIS_truncate.function, Real.sqrt_one]
  rw [h1, h2]
  intro h
  simp only [List.cons.injEq] at h
  exact absurd h.1 (by norm_num)

/-- Witness for C2, instantiating the agreement theorem at concrete
parameters and, for the truncated profile, at the concrete pair `(3, 0)`
away from the boundary radii. -/
theorem array_scalar_agreement_witness :
    SIS_truncate.SisArrayAgrees 1 1 0 0 ∧
    ElliSLICE.ElliArrayAgrees 2 1 0 1 0 0 ∧
    (SIS_truncate.functionArr [(3, 0)] 1 1 0 0)[0]? =
      some (SIS_truncate.function 3 0 1 1 0 0) := by
  have hsqrt : Real.sqrt ((3 - (0:ℝ)) * (3 - 0) + (0 - 0) * (0 - 0)) = 3 := by
    norm_num
    rw [show (9:ℝ) = 3 ^ 2 by norm_num, Real.sqrt_sq (by norm_num : (0:ℝ) ≤ 3)]
  refine ⟨array_scalar_agreement.1 1 1 0 0,
    array_scalar_agreement.2 2 1 0 1 0 0, ?_⟩
  have h := ((array_scalar_agreement.1 1 1 0 0 [(3, 0)]).2.2.2 0 3 0
    (by simp)).1
  exact h (by rw [hsqrt]; norm_num) (by rw [hsqrt]; norm_num)

namespace ElliSLICE

lemma alpha_in_zero (k : Slice) : alpha_in 0 0 k = (0, 0) := by
  simp [alpha_in]

end ElliSLICE

/-- C9: for `a ≥ b > 0` the elliptical-slice deflection at the exact
center is `(0, 0)`: the center passes the inside-membership test and the
inside deflection `(z - e·conj(z)·e^{2iψ})·σ₀` vanishes at `z = 0`. -/
theorem elli_deflection_center_zero (a b psi sigma_0 center_x center_y : ℝ)
    (hab : b ≤ a) (hb : 0 < b) :
    ElliSLICE.derivatives center_x center_y a b psi sigma_0 center_x center_y =
      some (0, 0) := by
  simp only [ElliSLICE.derivatives, sub_self, ElliSLICE.alpha_in_zero]
  rw [if_pos (by simp)]

/-- Witness for C9, at `a = 2`, `b = 1`, `psi = 0`, `sigma_0 = 1`,
center `(3, 5)`. -/
theorem elli_deflection_center_zero_witness :
    (1:ℝ) ≤ 2 ∧ (0:ℝ) < 1 ∧
    ElliSLICE.derivatives 3 5 2 1 0 1 3 5 = some (0, 0) :=
  ⟨by norm_num, by norm_num,
    elli_deflection_center_zero 2 1 0 1 3 5 (by norm_num) (by norm_num)⟩

/-- C6: the elliptical-slice hessian is exactly the forward-difference
quotients, with fixed step `1e-9`, of the profile's own deflection
operation: `f_xx = (αx(x+h,y)-αx(x,y))/h`, `f_xy = (αx(x,y+h)-αx(x,y))/h`,
`f_yx = (αy(x+h,y)-αy(x,y))/h`, `f_yy = (αy(x,y+h)-αy(x,y))/h`. -/
theorem elli_hessian_forward_diff (x y a b psi sigma_0 center_x center_y : ℝ)
    (al al_dx al_dy : ℝ × ℝ)
    (h : ElliSLICE.derivatives x y a b psi sigma_0 center_x center_y = some al)
    (hdx : ElliSLICE.derivatives (x + 1 / 10 ^ 9) y a b psi sigma_0 center_x
      center_y = some al_dx)
    (hdy : ElliSLICE.derivatives x (y + 1 / 10 ^ 9) a b psi sigma_0 center_x
      center_y = some al_dy) :
    ElliSLICE.hessian x y a b psi sigma_0 center_x center_y =
      some ((al_dx.1 - al.1) / (1 / 10 ^ 9), (al_dy.1 - al.1) / (1 / 10 ^ 9),
        (al_dx.2 - al.2) / (1 / 10 ^ 9), (al_dy.2 - al.2) / (1 / 10 ^ 9)) := by
  simp only [ElliSLICE.hessian, h, hdx, hdy]

/-- Witness for C6: inside the ellipse `a = 2, b = 1, psi = 0, sigma_0 = 1`
at the origin, the three deflections evaluate in closed form and the
hessian is the corresponding difference quotient `(2/3, 0, 0, 4/3)`. -/
theorem elli_hessian_forward_diff_witness :
    ElliSLICE.derivatives 0 0 2 1 0 1 0 0 = some (0, 0) ∧
    ElliSLICE.derivatives (0 + 1 / 10 ^ 9) 0 2 1 0 1 0 0 =
      some (2 / 3 * (1 / 10 ^ 9), 0) ∧
    ElliSLICE.derivatives 0 (0 + 1 / 10 ^ 9) 2 1 0 1 0 0 =
      some (0, 4 / 3 * (1 / 10 ^ 9)) ∧
    ElliSLICE.hessian 0 0 2 1 0 1 0 0 = some (2 / 3, 0, 0, 4 / 3) := by
  have d1 : ElliSLICE.derivatives 0 0 2 1 0 1 0 0 = some (0, 0) := by
    norm_num [ElliSLICE.derivatives, ElliSLICE.alpha_in]
  have d2 : ElliSLICE.derivatives (0 + 1 / 10 ^ 9) 0 2 1 0 1 0 0 =
      some (2 / 3 * (1 / 10 ^ 9), 0) := by
    norm_num [ElliSLICE.derivatives, ElliSLICE.alpha_in, Complex.ext_iff,
      Complex.exp_zero]
  have d3 : ElliSLICE.derivatives 0 (0 + 1 / 10 ^ 9) 2 1 0 1 0 0 =
      some (0, 4 / 3 * (1 / 10 ^ 9)) := by
    norm_num [ElliSLICE.derivatives, ElliSLICE.alpha_in, Complex.ext_iff,
      Complex.exp_zero]
  refine ⟨d1, d2, d3, ?_⟩
  rw [elli_hessian_forward_diff 0 0 2 1 0 1 0 0 (0, 0)
    (2 / 3 * (1 / 10 ^ 9), 0) (0, 4 / 3 * (1 / 10 ^ 9)) d1 d2 d3]
  norm_num

namespace ElliSLICE

lemma alphaCF_none_of_circular (x y : ℝ) (k : Slice) (hab : k.a = k.b) :
    alphaCF x y k = none := by
  simp only [alphaCF]
  rw [if_pos (by rw [hab, sub_self])]

lemma potCF_none_of_circular (x y : ℝ) (k : Slice) (hab : k.a = k.b) :
    potCF x y k = none := by
  simp only [potCF]
  rw [if_pos (Or.inl (by rw [hab, sub_self, zero_div]))]

lemma pot_ext_none_of_circular (x y : ℝ) (k : Slice) (hab : k.a = k.b) :
    pot_ext x y k = none := by
  have hn : ∀ u v : ℝ, potCF u v k = none := fun u v =>
    potCF_none_of_circular u v k hab
  simp only [pot_ext]
  split
  · simp [medOpt3R, hn]
  · exact hn x y

lemma alpha_ext_circular_off_axis (x y : ℝ) (k : Slice) (hab : k.a = k.b)
    (hout : x ^ 2 + y ^ 2 > k.a ^ 2) (hax : ¬ onAxis x y k.psi) :
    alpha_ext x y k =
      some (k.sigma_0 * k.a ^ 2 * x / (x ^ 2 + y ^ 2),
        k.sigma_0 * k.a ^ 2 * y / (x ^ 2 + y ^ 2)) := by
  simp only [alpha_ext]
  rw [if_neg hax, if_pos ⟨hab, hout⟩]

lemma polar_phi_two_zero : polar_phi 2 0 = 0 := by
  unfold polar_phi
  norm_num

lemma onAxis_two_zero : onAxis 2 0 0 := by
  left
  rw [polar_phi_two_zero]
  norm_num

lemma alpha_ext_axis_circular_eval :
    alpha_ext 2 0 ⟨1, 1, 0, 1, 0, 0⟩ = none := by
  have hn : ∀ u v : ℝ, alphaCF u v ⟨1, 1, 0, 1, 0, 0⟩ = none := fun u v =>
    alphaCF_none_of_circular u v _ rfl
  simp only [alpha_ext]
  rw [if_pos onAxis_two_zero]
  simp [medOpt3, hn]

lemma abs_one_add_two_I : Complex.abs (1 + 2 * Complex.I) = Real.sqrt 5 := by
  rw [Complex.abs_apply]
  norm_num [Complex.normSq_apply]

lemma not_onAxis_one_two : ¬ onAxis 1 2 0 := by
  unfold onAxis polar_phi
  push_neg
  have hz : ((1:ℝ):ℂ) + ((2:ℝ):ℂ) * Complex.I ≠ 0 := by
    simp [Complex.ext_iff]
  have hz' : ((1:ℝ):ℂ) + ((2:ℝ):ℂ) * Complex.I = 1 + 2 * Complex.I := by
    norm_num
  have h5 : Real.sqrt 5 < 3 := by
    rw [show (3:ℝ) = Real.sqrt 9 from sqrt_nine.symm]
    exact Real.sqrt_lt_sqrt (by norm_num) (by norm_num)
  have h5p : 0 < Real.sqrt 5 := Real.sqrt_pos.mpr (by norm_num)
  have hsin : Real.sin (Complex.arg (((1:ℝ):ℂ) + ((2:ℝ):ℂ) * Complex.I)) =
      2 / Real.sqrt 5 := by
    rw [hz', Complex.sin_arg, abs_one_add_two_I]
    norm_num
  have hcos : Real.cos (Complex.arg (((1:ℝ):ℂ) + ((2:ℝ):ℂ) * Complex.I)) =
      1 / Real.sqrt 5 := by
    rw [hz', Complex.cos_arg (hz' ▸ hz), abs_one_add_two_I]
    norm_num
  constructor
  · rw [sub_zero, hsin, abs_of_pos (by positivity)]
    have h23 : (2:ℝ) / 3 < 2 / Real.sqrt 5 :=
      div_lt_div_of_pos_left (by norm_num) h5p h5
    have : (1:ℝ) / 10 ^ 10 < 2 / 3 := by norm_num
    linarith
  · rw [sub_zero, Real.sin_sub_pi_div_two, hcos, abs_neg,
      abs_of_pos (by positivity)]
    have h13 : (1:ℝ) / 3 < 1 / Real.sqrt 5 :=
      div_lt_div_of_pos_left (by norm_num) h5p h5
    have : (1:ℝ) / 10 ^ 10 < 1 / 3 := by norm_num
    linarith

end ElliSLICE

/-- C5 (amended): for `a == b` and a point outside the circular boundary
that is not within the `1e-10` axis-proximity threshold, the deflection
returns exactly the simplified `σ₀·a²·(x,y)/r²` formula.  (Axis-aligned
outside points instead enter the median branch, whose general formula
divides by `f2 = a² - b² = 0`; see the counterexample theorem.) -/
theorem circular_deflection_simplified (x y : ℝ) (k : ElliSLICE.Slice)
    (hab : k.a = k.b) (hout : x ^ 2 + y ^ 2 > k.a ^ 2)
    (hax : ¬ ElliSLICE.onAxis x y k.psi) :
    ElliSLICE.alpha_ext x y k =
      some (k.sigma_0 * k.a ^ 2 * x / (x ^ 2 + y ^ 2),
        k.sigma_0 * k.a ^ 2 * y / (x ^ 2 + y ^ 2)) :=
  ElliSLICE.alpha_ext_circular_off_axis x y k hab hout hax

/-- Witness for C5, at `a = b = 1`, `psi = 0`, `sigma_0 = 1` and the
off-axis outside point `(1, 2)`. -/
theorem circular_deflection_simplified_witness :
    (1:ℝ) ^ 2 + 2 ^ 2 > (1:ℝ) ^ 2 ∧ ¬ ElliSLICE.onAxis 1 2 0 ∧
    ElliSLICE.alpha_ext 1 2 ⟨1, 1, 0, 1, 0, 0⟩ =
      some (1 * 1 ^ 2 * 1 / (1 ^ 2 + 2 ^ 2), 1 * 1 ^ 2 * 2 / (1 ^ 2 + 2 ^ 2)) :=
  ⟨by norm_num, ElliSLICE.not_onAxis_one_two,
    circular_deflection_simplified 1 2 ⟨1, 1, 0, 1, 0, 0⟩ rfl (by norm_num)
      ElliSLICE.not_onAxis_one_two⟩

/-- Counterexample for C5 as stated: at the axis-aligned outside point
`(2, 0)` with `a = b = 1`, the code takes the median branch and divides by
`f2 = 0` (raising, embedded as `none`), so it does not return the
simplified closed-form value `(1/2, 0)`. -/
theorem circular_deflection_simplified_cex :
    ElliSLICE.alpha_ext 2 0 ⟨1, 1, 0, 1, 0, 0⟩ ≠
      some (1 * 1 ^ 2 * 2 / (2 ^ 2 + 0 ^ 2), 1 * 1 ^ 2 * 0 / (2 ^ 2 + 0 ^ 2)) := by
  rw [ElliSLICE.alpha_ext_axis_circular_eval]
  exact fun h => Option.noConfusion h

/-- C3 (amended): with `a == b` inside the published bounds, the outside
potential raises a `ZeroDivisionError` (embedded: returns `none`) at every
point — division by zero does not propagate as IEEE NaN/Inf — while the
deflection raises no exception at outside points away from the axes. -/
theorem circular_division_by_zero_raises (x y : ℝ) (k : ElliSLICE.Slice)
    (hab : k.a = k.b) :
    ElliSLICE.pot_ext x y k = none ∧
    (x ^ 2 + y ^ 2 > k.a ^ 2 → ¬ ElliSLICE.onAxis x y k.psi →
      ∃ v, ElliSLICE.alpha_ext x y k = some v) :=
  ⟨ElliSLICE.pot_ext_none_of_circular x y k hab,
    fun hout hax => ⟨_, ElliSLICE.alpha_ext_circular_off_axis x y k hab hout hax⟩⟩

/-- Witness for C3, at `a = b = 1`, `psi = 0`, `sigma_0 = 1`, point `(1, 2)`. -/
theorem circular_division_by_zero_raises_witness :
    ElliSLICE.pot_ext 1 2 ⟨1, 1, 0, 1, 0, 0⟩ = none ∧
    (∃ v, ElliSLICE.alpha_ext 1 2 ⟨1, 1, 0, 1, 0, 0⟩ = some v) :=
  ⟨(circular_division_by_zero_raises 1 2 ⟨1, 1, 0, 1, 0, 0⟩ rfl).1,
    (circular_division_by_zero_raises 1 2 ⟨1, 1, 0, 1, 0, 0⟩ rfl).2
      (by norm_num) ElliSLICE.not_onAxis_one_two⟩

/-- Counterexample for C3 as stated: for `a = b = 1 > 0` (inside the
published bounds) and outside points, both operations hit a Python
division by zero and raise (embedded: `none`) instead of propagating IEEE
NaN/Inf — `pot_ext` at the off-axis point `(1, 2)` (division by `4e = 0`)
and `alpha_ext` at the axis point `(2, 0)` (division by `f2 = 0`). -/
theorem nan_propagation_cex :
    ElliSLICE.pot_ext 1 2 ⟨1, 1, 0, 1, 0, 0⟩ = none ∧
    ElliSLICE.alpha_ext 2 0 ⟨1, 1, 0, 1, 0, 0⟩ = none :=
  ⟨ElliSLICE.pot_ext_none_of_circular 1 2 _ rfl,
    ElliSLICE.alpha_ext_axis_circular_eval⟩

/-- C8 (amended): near an ellipse axis the outside-branch deflection and
potential are the componentwise median of the three closed-form
evaluations (at the point and at the two angularly perturbed points at
the same radius); away from the axes the potential is the single
unperturbed closed-form evaluation, and so is the deflection — except
when `a == b` with the point outside the circle, where the simplified
circular formula is returned instead of the closed form (which would
divide by `f2 = 0`; see the counterexample theorem). -/
theorem outside_branch_median (x y : ℝ) (k : ElliSLICE.Slice) :
    (ElliSLICE.onAxis x y k.psi →
      ElliSLICE.alpha_ext x y k =
        ElliSLICE.medOpt3
          (ElliSLICE.alphaCF
            (ElliSLICE.polar_r x y *
              Real.cos (ElliSLICE.polar_phi x y - 1 / 10 ^ 10))
            (ElliSLICE.polar_r x y *
              Real.sin (ElliSLICE.polar_phi x y - 1 / 10 ^ 10)) k)
          (ElliSLICE.alphaCF
            (ElliSLICE.polar_r x y *
              Real.cos (ElliSLICE.polar_phi x y + 1 / 10 ^ 10))
            (ElliSLICE.polar_r x y *
              Real.sin (ElliSLICE.polar_phi x y + 1 / 10 ^ 10)) k)
          (ElliSLICE.alphaCF x y k) ∧
      ElliSLICE.pot_ext x y k =
        ElliSLICE.medOpt3R
          (ElliSLICE.potCF
            (ElliSLICE.polar_r x y *
              Real.cos (ElliSLICE.polar_phi x y - 1 / 10 ^ 10))
            (ElliSLICE.polar_r x y *
              Real.sin (ElliSLICE.polar_phi x y - 1 / 10 ^ 10)) k)
          (ElliSLICE.potCF
            (ElliSLICE.polar_r x y *
              Real.cos (ElliSLICE.polar_phi x y + 1 / 10 ^ 10))
            (ElliSLICE.polar_r x y *
              Real.sin (ElliSLICE.polar_phi x y + 1 / 10 ^ 10)) k)
          (ElliSLICE.potCF x y k)) ∧
    (¬ ElliSLICE.onAxis x y k.psi →
      ElliSLICE.pot_ext x y k = ElliSLICE.potCF x y k) ∧
    (¬ ElliSLICE.onAxis x y k.psi → ¬ (k.a = k.b ∧ x ^ 2 + y ^ 2 > k.a ^ 2) →
      ElliSLICE.alpha_ext x y k = ElliSLICE.alphaCF x y k) ∧
    (¬ ElliSLICE.onAxis x y k.psi → k.a = k.b → x ^ 2 + y ^ 2 > k.a ^ 2 →
      ElliSLICE.alpha_ext x y k =
        some (k.sigma_0 * k.a ^ 2 * x / (x ^ 2 + y ^ 2),
          k.sigma_0 * k.a ^ 2 * y / (x ^ 2 + y ^ 2)) ∧
      ElliSLICE.alphaCF x y k = none) := by
  refine ⟨?_, ?_, ?_, ?_⟩
  · intro hax
    constructor
    · simp only [ElliSLICE.alpha_ext]
      rw [if_pos hax]
    · simp only [ElliSLICE.pot_ext]
      rw [if_pos hax]
  · intro hax
    simp only [ElliSLICE.pot_ext]
    rw [if_neg hax]
  · intro hax hnc
    simp only [ElliSLICE.alpha_ext]
    rw [if_neg hax, if_neg hnc]
  · intro hax hab hout
    exact ⟨ElliSLICE.alpha_ext_circular_off_axis x y k hab hout hax,
      ElliSLICE.alphaCF_none_of_circular x y k hab⟩

/-- Counterexample for C8 as stated: at the off-axis outside point
`(1, 2)` with `a = b = 1`, the code returns the simplified circular value
rather than the single unperturbed closed-form evaluation (which divides
by `f2 = 0` and is undefined). -/
theorem outside_branch_median_cex :
    ElliSLICE.alpha_ext 1 2 ⟨1, 1, 0, 1, 0, 0⟩ ≠
      ElliSLICE.alphaCF 1 2 ⟨1, 1, 0, 1, 0, 0⟩ := by
  rw [ElliSLICE.alpha_ext_circular_off_axis 1 2 ⟨1, 1, 0, 1, 0, 0⟩ rfl
      (by norm_num) ElliSLICE.not_onAxis_one_two,
    ElliSLICE.alphaCF_none_of_circular 1 2 ⟨1, 1, 0, 1, 0, 0⟩ rfl]
  exact fun h => Option.noConfusion h

/-- Witness for C8, discharging the axis-proximity hypothesis at `(2, 0)`
and its negation at `(1, 2)` for `a = 2, b = 1, psi = 0, sigma_0 = 1`. -/
theorem outside_branch_median_witness :
    ElliSLICE.onAxis 2 0 0 ∧ ¬ ElliSLICE.onAxis 1 2 0 ∧
    ElliSLICE.pot_ext 1 2 ⟨2, 1, 0, 1, 0, 0⟩ =
      ElliSLICE.potCF 1 2 ⟨2, 1, 0, 1, 0, 0⟩ ∧
    ElliSLICE.alpha_ext 2 0 ⟨2, 1, 0, 1, 0, 0⟩ =
      ElliSLICE.medOpt3
        (ElliSLICE.alphaCF
          (ElliSLICE.polar_r 2 0 *
            Real.cos (ElliSLICE.polar_phi 2 0 - 1 / 10 ^ 10))
          (ElliSLICE.polar_r 2 0 *
            Real.sin (ElliSLICE.polar_phi 2 0 - 1 / 10 ^ 10)) ⟨2, 1, 0, 1, 0, 0⟩)
        (ElliSLICE.alphaCF
          (ElliSLICE.polar_r 2 0 *
            Real.cos (ElliSLICE.polar_phi 2 0 + 1 / 10 ^ 10))
          (ElliSLICE.polar_r 2 0 *
            Real.sin (ElliSLICE.polar_phi 2 0 + 1 / 10 ^ 10)) ⟨2, 1, 0, 1, 0, 0⟩)
        (ElliSLICE.alphaCF 2 0 ⟨2, 1, 0, 1, 0, 0⟩) :=
  ⟨ElliSLICE.onAxis_two_zero, ElliSLICE.not_onAxis_one_two,
    (outside_branch_median 1 2 ⟨2, 1, 0, 1, 0, 0⟩).2.1
      ElliSLICE.not_onAxis_one_two,
    ((outside_branch_median 2 0 ⟨2, 1, 0, 1, 0, 0⟩).1
      ElliSLICE.onAxis_two_zero).1⟩
